import Mathlib

/-!
Verification of `backend/agent.py`: a shallow embedding of the
provider-routing, adapter, schema-translation and transcript-management
logic, together with theorems settling the specification claims about it.

Modelling conventions:
* Python `float` timestamps (from `time.monotonic()`) are modelled as `ℚ`:
  the code only subtracts and compares them.
* Python `dict`s are modelled as insertion-ordered association lists with
  unique keys; `dict.get` is first-match lookup, `dict[k] = v` replaces in
  place (keeping position) or appends.
* Python truthiness is modelled explicitly where the source relies on it
  (`if last_seen`, `if not normalized`, `if not self._session_id`, ...).
-/

namespace Agent

/-- First-match association-list lookup, modelling Python `dict.get(k)` and
`k in dict` over insertion-ordered entries. -/
def pyLookup {β : Type} (k : String) : List (String × β) → Option β
  | [] => none
  | e :: rest => if e.1 = k then some e.2 else pyLookup k rest

/-- Python `dict[k] = v`: replace in place when the key is present (keeping
its position), append otherwise. -/
def pySet {β : Type} (l : List (String × β)) (k : String) (v : β) : List (String × β) :=
  if l.any (fun e => e.1 = k) then l.map (fun e => if e.1 = k then (e.1, v) else e)
  else l ++ [(k, v)]

/-- Model of `TranscriptManager.DEDUPE_WINDOW_SECONDS = 5.0`. -/
def DEDUPE_WINDOW_SECONDS : ℚ := 5

/-- The purge at the start of `TranscriptManager._is_duplicate`: delete every
cache entry whose timestamp satisfies `now - ts > DEDUPE_WINDOW_SECONDS`
(Python builds the `expired` list and deletes those keys; order of the
remaining entries is preserved). -/
def purgeCache (cache : List (String × ℚ)) (now : ℚ) : List (String × ℚ) :=
  cache.filter (fun e => !(decide (now - e.2 > DEDUPE_WINDOW_SECONDS)))

/-- Model of `TranscriptManager._is_duplicate(speaker, text)` acting on one speaker's
cache.  Returns the boolean result together with the mutated cache.
Note the source guard is `if last_seen and now - last_seen < WINDOW`: the
Python truthiness test makes a stored timestamp of exactly `0.0` behave as if
the entry were absent, which the model reproduces with `last_seen ≠ 0`. -/
def _is_duplicate (cache : List (String × ℚ)) (now : ℚ) (text : String) :
    Bool × List (String × ℚ) :=
  let purged := purgeCache cache now
  match pyLookup text purged with
  | some last_seen =>
    if last_seen ≠ 0 ∧ now - last_seen < DEDUPE_WINDOW_SECONDS then (true, purged)
    else (false, pySet purged text now)
  | none => (false, pySet purged text now)

/-! ## Text flattening and normalization (`TranscriptManager._flatten_text`,
`TranscriptManager._normalize_text`) -/

/-- Python values that can reach `_flatten_text`: `None`, strings, bytes,
ordered collections, key-value mappings, and attribute-bearing objects.
`bytesDec` carries the UTF-8 decode (with `errors='ignore'`) of the raw
bytes, abstracting the codec itself; `obj` carries the (string-valued, per
the host API) `text_content` attribute, the remaining probe-able attributes,
and the value's `str()` rendering. -/
inductive PyVal where
  | none : PyVal
  | str (s : String) : PyVal
  | bytesDec (s : String) : PyVal
  | list (xs : List PyVal) : PyVal
  | dict (entries : List (String × PyVal)) : PyVal
  | obj (text_content : Option String) (attrs : List (String × PyVal)) (rep : String) : PyVal

/-- Python truthiness for the modelled values. -/
def PyVal.truthy : PyVal → Bool
  | PyVal.none => false
  | PyVal.str s => s != ""
  | PyVal.bytesDec s => s != ""
  | PyVal.list xs => !xs.isEmpty
  | PyVal.dict es => !es.isEmpty
  | PyVal.obj _ _ _ => true

theorem sizeOf_of_pyLookup {β : Type} [SizeOf β] {k : String} {v : β}
    {l : List (String × β)} (h : pyLookup k l = some v) : sizeOf v < sizeOf l := by
  induction l with
  | nil => simp [pyLookup] at h
  | cons e rest ih =>
    rcases e with ⟨k0, v0⟩
    rcases eq_or_ne k0 k with he | he
    · subst he
      simp [pyLookup] at h
      subst h
      simp
      omega
    · simp [pyLookup, he] at h
      have := ih h
      simp
      omega

/-- Model of the join `" ".join(tokens)`. -/
def joinSpaceTokens : List String → String
  | [] => ""
  | [t] => t
  | t :: ts => t ++ " " ++ joinSpaceTokens ts

mutual

/-- Model of `TranscriptManager._flatten_text(value)`. Branches follow the source's
check order; each model constructor reaches exactly one branch (`str` values
have none of the probed attributes, containers/bytes are matched by
`isinstance`, objects fall through to the attribute probe and the `str()`
fallback). -/
def flatten_text : PyVal → String
  | PyVal.none => ""
  | PyVal.str s => s
  | PyVal.bytesDec s => s
  | PyVal.list xs => joinSpaceTokens ((flattenParts xs).filter (fun p => p != ""))
  | PyVal.dict es => dictKeyLoop ["text", "transcript", "content", "value"] es
  | PyVal.obj tc attrs rep =>
    match tc with
    | some t => if t != "" then t else attrLoop ["text", "transcript", "value", "content"] attrs rep
    | Option.none => attrLoop ["text", "transcript", "value", "content"] attrs rep
termination_by v => 8 * sizeOf v
decreasing_by
  all_goals simp_wf
  all_goals omega

/-- Model of `[self._flatten_text(part) for part in value]`. -/
def flattenParts : List PyVal → List String
  | [] => []
  | x :: xs => flatten_text x :: flattenParts xs
termination_by xs => 8 * sizeOf xs
decreasing_by
  all_goals simp_wf
  all_goals omega

/-- The `for key in ('text', 'transcript', 'content', 'value')` loop of the
mapping branch: the key must be present with a truthy value, and its
flattening must be non-empty, else the loop continues; exhaustion yields
the empty string. -/
def dictKeyLoop : List String → List (String × PyVal) → String
  | [], _ => ""
  | k :: ks, es =>
    match h : pyLookup k es with
    | some v =>
      if PyVal.truthy v then
        let f := flatten_text v
        if f != "" then f else dictKeyLoop ks es
      else dictKeyLoop ks es
    | Option.none => dictKeyLoop ks es
termination_by ks es => 8 * sizeOf es + ks.length
decreasing_by
  all_goals simp_wf
  all_goals try omega
  all_goals (have hlt := sizeOf_of_pyLookup h; omega)

/-- The `for attr in ('text', 'transcript', 'value', 'content')` probe of the
object branch, with the `str(value)` fallback on exhaustion. -/
def attrLoop : List String → List (String × PyVal) → String → String
  | [], _, rep => rep
  | a :: rest, attrs, rep =>
    match h : pyLookup a attrs with
    | some v =>
      let f := flatten_text v
      if f != "" then f else attrLoop rest attrs rep
    | Option.none => attrLoop rest attrs rep
termination_by ks attrs rep => 8 * sizeOf attrs + ks.length
decreasing_by
  all_goals simp_wf
  all_goals try omega
  all_goals (have hlt := sizeOf_of_pyLookup h; omega)

end

/-- Python whitespace test used by `str.strip` / `str.split` (ASCII-focused
abstraction of the Unicode classification). -/
def pyIsSpace (c : Char) : Bool := c.isWhitespace

/-- Model of `str.lstrip()` on the character list. -/
def lstripL (l : List Char) : List Char := l.dropWhile pyIsSpace

/-- Model of `str.rstrip()` on the character list. -/
def rstripL (l : List Char) : List Char := (l.reverse.dropWhile pyIsSpace).reverse

/-- Model of `str.strip()` on the character list. -/
def pyStripL (l : List Char) : List Char := rstripL (lstripL l)

/-- Model of `str.strip()`. -/
def pyStrip (s : String) : String := String.mk (pyStripL s.data)

/-- Model of `str.split()` (no separator) worker: accumulates the current
non-whitespace run (reversed) and emits it at each whitespace boundary. -/
def wsSplitAux : List Char → List Char → List (List Char)
  | [], acc => if acc.isEmpty then [] else [acc.reverse]
  | c :: cs, acc =>
    if pyIsSpace c then
      if acc.isEmpty then wsSplitAux cs [] else acc.reverse :: wsSplitAux cs []
    else wsSplitAux cs (c :: acc)

/-- Model of `str.split()` (no separator): maximal runs of non-whitespace characters. -/
def wsTokens (l : List Char) : List (List Char) := wsSplitAux l []

/-- Model of `" ".join(flattened.strip().split())`: collapse whitespace runs to single
spaces, trimming the ends. -/
def pyNormalize (s : String) : String :=
  joinSpaceTokens ((wsTokens (pyStripL s.data)).map (fun t => String.mk t))

/-- Model of `TranscriptManager._normalize_text(text)`. -/
def _normalize_text (v : PyVal) : String :=
  let flattened := flatten_text v
  if flattened = "" then "" else pyNormalize flattened

/-! ## TranscriptManager state and operations -/

/-- The two speaker channels (the `_recent_turns` dict is created with
exactly the keys `'user'` and `'assistant'`, and every caller passes one of
them). -/
inductive Speaker where
  | user
  | assistant
deriving DecidableEq

/-- Model of `TranscriptManager` state: bound session id, per-speaker dedup caches,
and the held user partial (source field `_pending_user_partial`, renamed
here; `Option.none` models Python `None`). -/
structure TranscriptManager where
  session_id : Option String
  recent_user : List (String × ℚ)
  recent_assistant : List (String × ℚ)
  pendingUserText : Option String

/-- Model of `self._recent_turns[speaker]` (with `setdefault`, which never creates a
new entry since both keys exist from `__init__`). -/
def TranscriptManager.cacheOf (tm : TranscriptManager) : Speaker → List (String × ℚ)
  | Speaker.user => tm.recent_user
  | Speaker.assistant => tm.recent_assistant

/-- Write back one speaker's cache. -/
def TranscriptManager.setCache (tm : TranscriptManager) :
    Speaker → List (String × ℚ) → TranscriptManager
  | Speaker.user, c => { tm with recent_user := c }
  | Speaker.assistant, c => { tm with recent_assistant := c }

/-- Python truthiness of an optional string (`if not self._session_id`). -/
def pyTruthyOptStr : Option String → Bool
  | Option.none => false
  | some s => s != ""

/-- Model of `TranscriptManager._maybe_save_turn(speaker, text)`, with the monotonic
clock passed explicitly.  The second component is the scheduled
`save_turn` dispatch (`Option.none` when the save is skipped); the manager
never observes its outcome. -/
def _maybe_save_turn (tm : TranscriptManager) (now : ℚ) (speaker : Speaker) (text : String) :
    TranscriptManager × Option (Speaker × String) :=
  if !pyTruthyOptStr tm.session_id || text == "" then (tm, Option.none)
  else
    let r := _is_duplicate (tm.cacheOf speaker) now text
    let tm2 := tm.setCache speaker r.2
    if r.1 then (tm2, Option.none) else (tm2, some (speaker, text))

/-- Model of `TranscriptManager.handle_user_transcript_chunk(transcript, is_final)`. -/
def handle_user_transcript_chunk (tm : TranscriptManager) (now : ℚ) (transcript : String)
    (is_final : Bool) : TranscriptManager × Option (Speaker × String) :=
  let normalized := _normalize_text (PyVal.str transcript)
  if normalized = "" then (tm, Option.none)
  else
    let tm1 := { tm with pendingUserText := some normalized }
    if is_final then
      let r := _maybe_save_turn tm1 now Speaker.user normalized
      ({ r.1 with pendingUserText := Option.none }, r.2)
    else (tm1, Option.none)

/-! ## Provider routing (`infer_model_provider`, `resolve_openai_chat_model`,
`create_hybrid_llm`) -/

/-- Character-list prefix test, spelled out for proof convenience. -/
def listLeads : List Char → List Char → Bool
  | [], _ => true
  | _ :: _, [] => false
  | p :: ps, c :: cs => p == c && listLeads ps cs

/-- Model of `s.startswith(pre)`. -/
def strLeads (s pre : String) : Bool := listLeads pre.data s.data

/-- Drop the first `n` characters.  For a string that starts with
`"openai/"`, Python's `split("/", 1)[1]` is exactly the suffix after the
7-character provider tag, i.e. `strDropN s 7`. -/
def strDropN (s : String) (n : Nat) : String := String.mk (s.data.drop n)

/-- Model of `DEFAULT_OPENAI_CHAT_MODEL`. -/
def DEFAULT_OPENAI_CHAT_MODEL : String := "gpt-5.1-nano"

/-- Model of `ANTHROPIC_MODEL_CANDIDATES`: logical model key → ordered candidate
list, newest first. -/
def ANTHROPIC_MODEL_CANDIDATES : List (String × List String) :=
  [("claude-sonnet-4-5", ["claude-3-5-sonnet-20241022", "claude-3-opus-20240229"]),
   ("claude-haiku-4-5", ["claude-3-5-haiku-20241022", "claude-3-haiku-20240307"])]

/-- Model of `GOOGLE_MODEL_MAP`. -/
def GOOGLE_MODEL_MAP : List (String × String) :=
  [("google/gemini-2.5-pro", "models/gemini-2.5-pro"),
   ("google/gemini-2.5-flash", "models/gemini-2.5-flash"),
   ("google/gemini-2.5-flash-lite", "models/gemini-2.5-flash-lite-preview-06-17")]

/-- Model of `model in ANTHROPIC_MODEL_CANDIDATES`. -/
def anthropicHasKey (m : String) : Bool :=
  ANTHROPIC_MODEL_CANDIDATES.any (fun e => e.1 == m)

/-- Model of `model in GOOGLE_MODEL_MAP`. -/
def googleHasKey (m : String) : Bool :=
  GOOGLE_MODEL_MAP.any (fun e => e.1 == m)

/-- Model of `resolve_openai_chat_model(model)`: strip, empty → default; an
`"openai/"`-prefixed identifier → the suffix after the prefix; anything
else → the default model (with a logged warning). -/
def resolve_openai_chat_model (model : Option String) : String :=
  let normalized := pyStrip (model.getD "")
  if normalized = "" then DEFAULT_OPENAI_CHAT_MODEL
  else if strLeads normalized "openai/" then strDropN normalized 7
  else DEFAULT_OPENAI_CHAT_MODEL

/-- Model of `infer_model_provider(model)`. -/
def infer_model_provider (model : Option String) : String :=
  match model with
  | Option.none => "openai"
  | some m =>
    if m = "" then "openai"
    else if strLeads m "openai/" then "openai"
    else if anthropicHasKey m then "anthropic"
    else if googleHasKey m then "google"
    else "openai"

/-- Model of `model or default` for an optional string. -/
def pyOrStr (model : Option String) (d : String) : String :=
  match model with
  | Option.none => d
  | some s => if s = "" then d else s

/-- Result of `create_hybrid_llm`: the provider tag plus the model key
handed to the chosen backend (for the OpenAI plugin this is the resolved
chat model name). -/
structure LLMChoice where
  provider : String
  model_key : String
deriving DecidableEq

/-- Model of `create_hybrid_llm(model)`, parameterized by which credentials are
configured (`anthropic_client` is constructed iff `ANTHROPIC_API_KEY` is
set; the Gemini path checks `GEMINI_API_KEY`).  A selected alternate
provider without credentials logs a warning and falls through to the
OpenAI branch. -/
def create_hybrid_llm (hasAnthropic hasGemini : Bool) (model : Option String) : LLMChoice :=
  let provider := infer_model_provider model
  if provider = "anthropic" && hasAnthropic then
    { provider := "anthropic", model_key := pyOrStr model "claude-sonnet-4-5" }
  else if provider = "google" && hasGemini then
    { provider := "google", model_key := pyOrStr model "google/gemini-2.5-flash-lite" }
  else
    { provider := "openai", model_key := resolve_openai_chat_model model }

/-! ## Candidate-based adapter (`anthropic_chat_stream`) and the Gemini
response phase, with error classification -/

/-- Outcome of one `anthropic_client.messages.create(...)` call: success
(abstract payload `α`), an `anthropic.APIStatusError` carrying its status
code, or any other exception. -/
inductive CallOutcome (α : Type) where
  | success (resp : α) : CallOutcome α
  | statusErr (code : Nat) : CallOutcome α
  | otherErr : CallOutcome α

/-- How an adapter invocation ends: normal completion, a raised
`APIStatusError` (with its `retryable` classification), a raised
`APIConnectionError`, or fall-through of the candidate loop (only possible
for an empty candidate list, which the code never builds). -/
inductive AdapterResult (α : Type) where
  | ok (resp : α) : AdapterResult α
  | statusError (code : Nat) (retryable : Bool) : AdapterResult α
  | connError (retryable : Bool) : AdapterResult α
  | exhausted : AdapterResult α

/-- Model of `ANTHROPIC_MODEL_CANDIDATES.get(model_key, [model_key])`. -/
def anthropic_candidates (model_key : String) : List String :=
  (pyLookup model_key ANTHROPIC_MODEL_CANDIDATES).getD [model_key]

/-- The `for idx, candidate in enumerate(candidates)` loop of
`anthropic_chat_stream`: returns the attempted candidates in order together
with the final result.  A 404 `APIStatusError` on a non-last candidate
(`idx < len(candidates) - 1`) `continue`s silently; any other status error
is re-raised as `APIStatusError(..., retryable=status_code >= 500)`; any
other exception is re-raised as `APIConnectionError(retryable=False)`. -/
def anthropic_try_candidates {α : Type} (call : String → CallOutcome α) :
    List String → List String × AdapterResult α
  | [] => ([], AdapterResult.exhausted)
  | c :: rest =>
    match call c with
    | CallOutcome.success r => ([c], AdapterResult.ok r)
    | CallOutcome.statusErr code =>
      if code = 404 ∧ rest ≠ [] then
        let r := anthropic_try_candidates call rest
        (c :: r.1, r.2)
      else ([c], AdapterResult.statusError code (decide (500 ≤ code)))
    | CallOutcome.otherErr => ([c], AdapterResult.connError false)

/-- The HTTP/decode phase of `gemini_chat_stream`: HTTP status `>= 400`
raises `APIStatusError(status_code=resp.status, retryable=resp.status >= 500)`;
otherwise an absent/empty `candidates` array raises a retryable
`APIConnectionError`; otherwise processing continues with `candidates[0]`. -/
def gemini_response_phase {α : Type} (status : Nat) (candidates : List α) : AdapterResult α :=
  if 400 ≤ status then AdapterResult.statusError status (decide (500 ≤ status))
  else
    match candidates with
    | [] => AdapterResult.connError true
    | c :: _ => AdapterResult.ok c

/-! ## Gemini tool-schema translation (`_convert_schema_for_gemini`) -/

/-- JSON values (tool parameter schemas).  Objects are insertion-ordered
key-value lists. -/
inductive Json where
  | str (s : String) : Json
  | num (n : Int) : Json
  | bool (b : Bool) : Json
  | null : Json
  | arr (xs : List Json) : Json
  | obj (fields : List (String × Json)) : Json

/-- Model of `str.upper()` (ASCII abstraction, covering the JSON-Schema `type`
values in use). -/
def pyUpper (s : String) : String := String.mk (s.data.map Char.toUpper)

mutual

/-- Model of `_convert_schema_for_gemini(value)` on an arbitrary JSON value.  The
Python function unconditionally iterates `value.items()`, so it is defined
only on objects; applying it to a non-dict raises, modelled by
`Option.none`. -/
def convertSchema : Json → Option Json
  | Json.obj fields => Option.map Json.obj (convertFields fields)
  | _ => Option.none
termination_by v => 2 * sizeOf v
decreasing_by
  all_goals simp_wf
  all_goals omega

/-- The `for key, val in value.items()` loop of
`_convert_schema_for_gemini`, building the `converted` dict entry by
entry. -/
def convertFields : List (String × Json) → Option (List (String × Json))
  | [] => some []
  | (k, v) :: rest =>
    match convertHead k v, convertFields rest with
    | some h, some r => some ((k, h) :: r)
    | _, _ => Option.none
termination_by l => 2 * sizeOf l + 1
decreasing_by
  all_goals simp_wf
  all_goals omega

/-- One iteration of the loop body (the `if key == ... and isinstance`
chain, organized by the value's shape, which decides the same cases):
`type` with a string value is upper-cased; `properties` with a dict value
converts each property schema (recursing through
`_convert_schema_for_gemini`, so each property value must itself be a
dict); `items` with a dict value recurses through
`_convert_schema_for_gemini`; every other key, and every non-matching
value shape, is copied verbatim. -/
def convertHead (k : String) : Json → Option Json
  | Json.str s => if k = "type" then some (Json.str (pyUpper s)) else some (Json.str s)
  | Json.obj fs =>
    if k = "properties" then Option.map Json.obj (convertProps fs)
    else if k = "items" then convertSchema (Json.obj fs)
    else some (Json.obj fs)
  | v => some v
termination_by v => 2 * sizeOf v + 2
decreasing_by
  all_goals simp_wf
  all_goals omega

/-- Model of `{k: _convert_schema_for_gemini(v) for k, v in val.items()}`. -/
def convertProps : List (String × Json) → Option (List (String × Json))
  | [] => some []
  | (pk, pv) :: rest =>
    match convertSchema pv, convertProps rest with
    | some h, some r => some ((pk, h) :: r)
    | _, _ => Option.none
termination_by l => 2 * sizeOf l + 1
decreasing_by
  all_goals simp_wf
  all_goals omega

end

/-- Spec-side grammar of nested object/array schemas, following the spec's
"structurally recursing into nested object/array schemas": an optional
string-valued `type`, a `properties` object of sub-schemas (emitted only
when non-empty), and an optional `items` sub-schema. -/
inductive SchemaTree where
  | node (ty : Option String) (props : List (String × SchemaTree))
      (items : Option SchemaTree) : SchemaTree

mutual

/-- Embedding of the spec-side schema grammar into JSON. -/
def SchemaTree.toJson : SchemaTree → Json
  | SchemaTree.node ty props items =>
    Json.obj
      ((match ty with
        | some s => [("type", Json.str s)]
        | Option.none => []) ++
       (if props.isEmpty then []
        else [("properties", Json.obj (propsToJson props))]) ++
       (match items with
        | some t => [("items", SchemaTree.toJson t)]
        | Option.none => []))
termination_by t => sizeOf t
decreasing_by
  all_goals simp_wf
  all_goals omega

def propsToJson : List (String × SchemaTree) → List (String × Json)
  | [] => []
  | (k, t) :: rest => (k, SchemaTree.toJson t) :: propsToJson rest
termination_by l => sizeOf l
decreasing_by
  all_goals simp_wf
  all_goals omega

end

mutual

/-- The spec-side transformation: upper-case every `type` string in the
schema tree, recursively, changing nothing else. -/
def SchemaTree.upperTypes : SchemaTree → SchemaTree
  | SchemaTree.node ty props items =>
    SchemaTree.node (ty.map pyUpper) (propsUpper props)
      (match items with
       | some t => some (SchemaTree.upperTypes t)
       | Option.none => Option.none)
termination_by t => sizeOf t
decreasing_by
  all_goals simp_wf
  all_goals omega

def propsUpper : List (String × SchemaTree) → List (String × SchemaTree)
  | [] => []
  | (k, t) :: rest => (k, SchemaTree.upperTypes t) :: propsUpper rest
termination_by l => sizeOf l
decreasing_by
  all_goals simp_wf
  all_goals omega

end

theorem convertSchema_obj (fields : List (String × Json)) :
    convertSchema (Json.obj fields) = Option.map Json.obj (convertFields fields) := by
  unfold convertSchema
  rfl

theorem convertFields_nil : convertFields [] = some [] := by
  conv_lhs => unfold convertFields

theorem convertFields_cons (k : String) (v : Json) (rest : List (String × Json)) :
    convertFields ((k, v) :: rest) =
      match convertHead k v, convertFields rest with
      | some h, some r => some ((k, h) :: r)
      | _, _ => Option.none := by
  conv_lhs => unfold convertFields

theorem convertProps_nil : convertProps [] = some [] := by
  conv_lhs => unfold convertProps

theorem convertProps_cons (pk : String) (pv : Json) (rest : List (String × Json)) :
    convertProps ((pk, pv) :: rest) =
      match convertSchema pv, convertProps rest with
      | some h, some r => some ((pk, h) :: r)
      | _, _ => Option.none := by
  conv_lhs => unfold convertProps

theorem convertHead_str (k : String) (s : String) :
    convertHead k (Json.str s) =
      if k = "type" then some (Json.str (pyUpper s)) else some (Json.str s) := by
  unfold convertHead
  rfl

theorem convertHead_obj (k : String) (fs : List (String × Json)) :
    convertHead k (Json.obj fs) =
      if k = "properties" then Option.map Json.obj (convertProps fs)
      else if k = "items" then convertSchema (Json.obj fs)
      else some (Json.obj fs) := by
  unfold convertHead
  rfl

theorem convertHead_copy (k : String) (v : Json) (h1 : ∀ s, v ≠ Json.str s)
    (h2 : ∀ fs, v ≠ Json.obj fs) : convertHead k v = some v := by
  cases v with
  | str s => exact absurd rfl (h1 s)
  | obj fs => exact absurd rfl (h2 fs)
  | num n => unfold convertHead; rfl
  | bool b => unfold convertHead; rfl
  | null => unfold convertHead; rfl
  | arr xs => unfold convertHead; rfl

theorem toJson_node (ty : Option String) (props : List (String × SchemaTree))
    (items : Option SchemaTree) :
    SchemaTree.toJson (SchemaTree.node ty props items) =
      Json.obj
        ((match ty with
          | some s => [("type", Json.str s)]
          | Option.none => []) ++
         (if props.isEmpty then []
          else [("properties", Json.obj (propsToJson props))]) ++
         (match items with
          | some t => [("items", SchemaTree.toJson t)]
          | Option.none => [])) := by
  conv_lhs => unfold SchemaTree.toJson

theorem propsToJson_nil : propsToJson [] = [] := by
  conv_lhs => unfold propsToJson

theorem propsToJson_cons (k : String) (t : SchemaTree) (rest : List (String × SchemaTree)) :
    propsToJson ((k, t) :: rest) = (k, SchemaTree.toJson t) :: propsToJson rest := by
  conv_lhs => unfold propsToJson

theorem upperTypes_node (ty : Option String) (props : List (String × SchemaTree))
    (items : Option SchemaTree) :
    SchemaTree.upperTypes (SchemaTree.node ty props items) =
      SchemaTree.node (ty.map pyUpper) (propsUpper props)
        (match items with
         | some t => some (SchemaTree.upperTypes t)
         | Option.none => Option.none) := by
  conv_lhs => unfold SchemaTree.upperTypes

theorem propsUpper_nil : propsUpper [] = [] := by
  conv_lhs => unfold propsUpper

theorem propsUpper_cons (k : String) (t : SchemaTree) (rest : List (String × SchemaTree)) :
    propsUpper ((k, t) :: rest) = (k, SchemaTree.upperTypes t) :: propsUpper rest := by
  conv_lhs => unfold propsUpper

theorem toJson_isObj (t : SchemaTree) : ∃ fs, SchemaTree.toJson t = Json.obj fs := by
  rcases t with ⟨ty, props, items⟩
  exact ⟨_, toJson_node ty props items⟩

theorem propsUpper_isEmpty (props : List (String × SchemaTree)) :
    (propsUpper props).isEmpty = props.isEmpty := by
  cases props with
  | nil => simp [propsUpper_nil]
  | cons p rest =>
    rcases p with ⟨k, t⟩
    simp [propsUpper_cons]

mutual

theorem convert_toJson : ∀ t : SchemaTree,
    convertSchema (SchemaTree.toJson t) = some (SchemaTree.toJson (SchemaTree.upperTypes t))
  | SchemaTree.node ty props items => by
    have hprops := convert_props props
    rcases items with _ | it
    · rcases ty with _ | s <;> cases hpe : props.isEmpty <;>
        simp [toJson_node, upperTypes_node, propsUpper_isEmpty, hpe, convertSchema_obj,
          convertFields_cons, convertFields_nil, convertHead_str, convertHead_obj, hprops]
    · have hit := convert_toJson it
      obtain ⟨fs, hfs⟩ := toJson_isObj it
      have hit2 : convertSchema (Json.obj fs) =
          some (SchemaTree.toJson (SchemaTree.upperTypes it)) := by
        rw [← hfs]
        exact hit
      rcases ty with _ | s <;> cases hpe : props.isEmpty <;>
        simp [toJson_node, upperTypes_node, propsUpper_isEmpty, hpe, convertSchema_obj,
          convertFields_cons, convertFields_nil, convertHead_str, convertHead_obj, hprops,
          hfs, hit2]
termination_by t => sizeOf t
decreasing_by
  all_goals simp_wf
  all_goals omega

theorem convert_props : ∀ ps : List (String × SchemaTree),
    convertProps (propsToJson ps) = some (propsToJson (propsUpper ps))
  | [] => by simp [propsToJson_nil, propsUpper_nil, convertProps_nil]
  | (k, t) :: rest => by
    have h1 := convert_toJson t
    have h2 := convert_props rest
    simp [propsToJson_cons, propsUpper_cons, convertProps_cons, h1, h2]
termination_by ps => sizeOf ps
decreasing_by
  all_goals simp_wf
  all_goals omega

end

theorem convertHead_arr (k : String) (xs : List Json) :
    convertHead k (Json.arr xs) = some (Json.arr xs) := by
  unfold convertHead
  rfl

theorem convertHead_other {k : String} (v : Json) (h1 : k ≠ "type")
    (h2 : k ≠ "properties") (h3 : k ≠ "items") : convertHead k v = some v := by
  cases v with
  | str s => simp [convertHead_str, h1]
  | obj fs => simp [convertHead_obj, h2, h3]
  | num n => unfold convertHead; rfl
  | bool b => unfold convertHead; rfl
  | null => unfold convertHead; rfl
  | arr xs => exact convertHead_arr k xs

theorem convertHead_type_nonstr {v : Json} (h : ∀ s, v ≠ Json.str s) :
    convertHead "type" v = some v := by
  cases v with
  | str s => exact absurd rfl (h s)
  | obj fs => simp [convertHead_obj]
  | num n => unfold convertHead; rfl
  | bool b => unfold convertHead; rfl
  | null => unfold convertHead; rfl
  | arr xs => exact convertHead_arr _ xs

theorem convertHead_props_nonobj {v : Json} (h : ∀ fs, v ≠ Json.obj fs) :
    convertHead "properties" v = some v := by
  cases v with
  | str s => simp [convertHead_str]
  | obj fs => exact absurd rfl (h fs)
  | num n => unfold convertHead; rfl
  | bool b => unfold convertHead; rfl
  | null => unfold convertHead; rfl
  | arr xs => exact convertHead_arr _ xs

theorem convertHead_items_nonobj {v : Json} (h : ∀ fs, v ≠ Json.obj fs) :
    convertHead "items" v = some v := by
  cases v with
  | str s => simp [convertHead_str]
  | obj fs => exact absurd rfl (h fs)
  | num n => unfold convertHead; rfl
  | bool b => unfold convertHead; rfl
  | null => unfold convertHead; rfl
  | arr xs => exact convertHead_arr _ xs

/-- C8: the Gemini schema translation walks nested object/array schema
trees (objects nesting through `properties` and `items`), upper-casing
every string-valued JSON-Schema `type` field and leaving the tree
structurally unchanged otherwise; in particular the spec's example
translates type string/integer to STRING/INTEGER, recursively. -/
theorem schema_type_uppercasing :
    (∀ t : SchemaTree, convertSchema (SchemaTree.toJson t) =
      some (SchemaTree.toJson (SchemaTree.upperTypes t))) ∧
    convertSchema (Json.obj [("type", Json.str "string"),
        ("properties", Json.obj [("x", Json.obj [("type", Json.str "integer")])])]) =
      some (Json.obj [("type", Json.str "STRING"),
        ("properties", Json.obj [("x", Json.obj [("type", Json.str "INTEGER")])])]) := by
  refine ⟨convert_toJson, ?_⟩
  have hu1 : pyUpper "string" = "STRING" := rfl
  have hu2 : pyUpper "integer" = "INTEGER" := rfl
  simp [convertSchema_obj, convertFields_cons, convertFields_nil, convertHead_str,
    convertHead_obj, convertProps_cons, convertProps_nil, hu1, hu2]

/-- C9: the translation recurses only through a dict-valued `properties`
entry and a dict-valued `items` entry.  Entry keys are preserved in order,
and an entry maps to an unchanged value whenever its key is none of
`type`/`properties`/`items`, or it is `type` with a non-string value, or
`properties`/`items` with a non-dict value; in particular schemas nested
under `anyOf` or `additionalProperties`, and a list-valued `items`, are
copied verbatim with no `type` upper-casing inside them. -/
theorem schema_conversion_frame :
    (∀ (fields out : List (String × Json)), convertFields fields = some out →
      List.Forall₂ (fun a b : String × Json =>
        a.1 = b.1 ∧
        (((a.1 ≠ "type" ∧ a.1 ≠ "properties" ∧ a.1 ≠ "items") ∨
          (a.1 = "type" ∧ ∀ s, a.2 ≠ Json.str s) ∨
          (a.1 = "properties" ∧ ∀ fs, a.2 ≠ Json.obj fs) ∨
          (a.1 = "items" ∧ ∀ fs, a.2 ≠ Json.obj fs)) → b.2 = a.2)) fields out) ∧
    convertSchema (Json.obj
      [("anyOf", Json.arr [Json.obj [("type", Json.str "string")]]),
       ("additionalProperties", Json.obj [("type", Json.str "integer")]),
       ("items", Json.arr [Json.obj [("type", Json.str "string")]])]) =
      some (Json.obj
      [("anyOf", Json.arr [Json.obj [("type", Json.str "string")]]),
       ("additionalProperties", Json.obj [("type", Json.str "integer")]),
       ("items", Json.arr [Json.obj [("type", Json.str "string")]])]) := by
  constructor
  · intro fields
    induction fields with
    | nil =>
      intro out h
      rw [convertFields_nil] at h
      cases h
      exact List.Forall₂.nil
    | cons e rest ih =>
      intro out h
      rcases e with ⟨k, v⟩
      rw [convertFields_cons] at h
      cases hh : convertHead k v with
      | none => rw [hh] at h; cases h
      | some h2 =>
        cases hr : convertFields rest with
        | none => rw [hh, hr] at h; cases h
        | some r =>
          rw [hh, hr] at h
          cases h
          refine List.Forall₂.cons ⟨rfl, ?_⟩ (ih r hr)
          intro hcond
          rcases hcond with ⟨hk1, hk2, hk3⟩ | ⟨hk, hv⟩ | ⟨hk, hv⟩ | ⟨hk, hv⟩
          · rw [convertHead_other v hk1 hk2 hk3] at hh
            cases hh
            rfl
          · subst hk
            rw [convertHead_type_nonstr hv] at hh
            cases hh
            rfl
          · subst hk
            rw [convertHead_props_nonobj hv] at hh
            cases hh
            rfl
          · subst hk
            rw [convertHead_items_nonobj hv] at hh
            cases hh
            rfl
  · simp [convertSchema_obj, convertFields_cons, convertFields_nil, convertHead_obj,
      convertHead_arr]

theorem schema_conversion_frame_witness :
    convertFields [("description", Json.str "hi")] = some [("description", Json.str "hi")] ∧
    List.Forall₂ (fun a b : String × Json =>
      a.1 = b.1 ∧
      (((a.1 ≠ "type" ∧ a.1 ≠ "properties" ∧ a.1 ≠ "items") ∨
        (a.1 = "type" ∧ ∀ s, a.2 ≠ Json.str s) ∨
        (a.1 = "properties" ∧ ∀ fs, a.2 ≠ Json.obj fs) ∨
        (a.1 = "items" ∧ ∀ fs, a.2 ≠ Json.obj fs)) → b.2 = a.2))
      [("description", Json.str "hi")] [("description", Json.str "hi")] := by
  have hcf : convertFields [("description", Json.str "hi")] =
      some [("description", Json.str "hi")] := by
    simp [convertFields_cons, convertFields_nil, convertHead_str]
  exact ⟨hcf, schema_conversion_frame.1 [("description", Json.str "hi")]
    [("description", Json.str "hi")] hcf⟩

/-- How the candidate loop classifies the outcome of the last call it makes
(spec-side abbreviation used to state the loop's contract). -/
def classifyFinalOutcome {α : Type} : CallOutcome α → AdapterResult α
  | CallOutcome.success r => AdapterResult.ok r
  | CallOutcome.statusErr code => AdapterResult.statusError code (decide (500 ≤ code))
  | CallOutcome.otherErr => AdapterResult.connError false

theorem anthropic_try_spec {α : Type} (call : String → CallOutcome α) :
    ∀ cs : List String, cs ≠ [] →
      ∃ pre last,
        (anthropic_try_candidates call cs).1 = pre ++ [last] ∧
        (∃ t, cs = (pre ++ [last]) ++ t) ∧
        (∀ c ∈ pre, call c = CallOutcome.statusErr 404) ∧
        (anthropic_try_candidates call cs).2 = classifyFinalOutcome (call last) := by
  intro cs
  induction cs with
  | nil => intro h; exact absurd rfl h
  | cons c rest ih =>
    intro _
    cases hc : call c with
    | success r =>
      refine ⟨[], c, ?_, ⟨rest, ?_⟩, ?_, ?_⟩ <;>
        simp [anthropic_try_candidates, hc, classifyFinalOutcome]
    | statusErr code =>
      by_cases h404 : code = 404 ∧ rest ≠ []
      · obtain ⟨hcode, hrest⟩ := h404
        subst hcode
        obtain ⟨pre, last, hatt, ⟨t, ht⟩, hpre, hres⟩ := ih hrest
        have hunf : anthropic_try_candidates call (c :: rest) =
            (c :: (anthropic_try_candidates call rest).1,
              (anthropic_try_candidates call rest).2) := by
          simp [anthropic_try_candidates, hc, hrest]
        rw [hunf]
        refine ⟨c :: pre, last, ?_, ⟨t, ?_⟩, ?_, hres⟩
        · simp [hatt]
        · simp [ht]
        · intro x hx
          rcases List.mem_cons.mp hx with hx1 | hx1
          · rw [hx1]; exact hc
          · exact hpre x hx1
      · refine ⟨[], c, ?_, ⟨rest, ?_⟩, ?_, ?_⟩ <;>
          simp [anthropic_try_candidates, hc, h404, classifyFinalOutcome]
    | otherErr =>
      refine ⟨[], c, ?_, ⟨rest, ?_⟩, ?_, ?_⟩ <;>
        simp [anthropic_try_candidates, hc, classifyFinalOutcome]

/-- C4: the candidate-based adapter tries candidates strictly in list
order — the attempted candidates form a non-empty, in-order prefix
`pre ++ [last]` of the candidate list; every attempted candidate before
the last failed with a not-found (404) status and was silently skipped,
never surfacing; the final result is the classified outcome of the last
attempted candidate (so iteration stops at any non-404 failure, at any
failure on the last candidate, and at a success, and no candidate after a
non-not-found failure is attempted); and in the spec's scenario `[A, B]`
with A not-found and B succeeding, exactly `[A, B]` is attempted, in
order, yielding B's response. -/
theorem candidate_fallback_order {α : Type} (call : String → CallOutcome α)
    (cs : List String) (hne : cs ≠ []) :
    (∃ pre last,
      (anthropic_try_candidates call cs).1 = pre ++ [last] ∧
      (∃ t, cs = (pre ++ [last]) ++ t) ∧
      (∀ c ∈ pre, call c = CallOutcome.statusErr 404) ∧
      (anthropic_try_candidates call cs).2 = classifyFinalOutcome (call last)) ∧
    (∀ (A B : String) (r : α),
      call A = CallOutcome.statusErr 404 → call B = CallOutcome.success r →
      anthropic_try_candidates call [A, B] = ([A, B], AdapterResult.ok r)) := by
  refine ⟨anthropic_try_spec call cs hne, ?_⟩
  intro A B r hA hB
  simp [anthropic_try_candidates, hA, hB]

theorem candidate_fallback_order_witness :
    (["a", "b"] : List String) ≠ [] ∧
    anthropic_try_candidates
        (fun c => if c = "a" then CallOutcome.statusErr 404 else CallOutcome.success 7)
        ["a", "b"] =
      (["a", "b"], AdapterResult.ok 7) := by
  constructor
  · decide
  · exact (candidate_fallback_order
      (fun c => if c = "a" then CallOutcome.statusErr 404 else CallOutcome.success 7)
      ["a", "b"] (by decide)).2 "a" "b" 7 rfl rfl

/-- C5: whenever either adapter surfaces a structured `APIStatusError`, it
carries the numeric remote status and is classified retryable iff the
status is server-side (>= 500); and the Gemini adapter raises exactly that
status error for every HTTP status >= 400. -/
theorem remote_status_error_retryable_classification :
    (∀ {α : Type} (call : String → CallOutcome α) (cs : List String) (code : Nat) (r : Bool),
      (anthropic_try_candidates call cs).2 = AdapterResult.statusError code r →
      (r = true ↔ 500 ≤ code)) ∧
    (∀ {α : Type} (status : Nat) (candidates : List α) (code : Nat) (r : Bool),
      gemini_response_phase status candidates = AdapterResult.statusError code r →
      code = status ∧ (r = true ↔ 500 ≤ code)) ∧
    (∀ {α : Type} (status : Nat) (candidates : List α), 400 ≤ status →
      gemini_response_phase status candidates =
        AdapterResult.statusError status (decide (500 ≤ status))) := by
  refine ⟨?_, ?_, ?_⟩
  · intro α call cs
    induction cs with
    | nil => intro code r h; simp [anthropic_try_candidates] at h
    | cons c rest ih =>
      intro code r h
      cases hc : call c with
      | success resp => simp [anthropic_try_candidates, hc] at h
      | statusErr code' =>
        by_cases h404 : code' = 404 ∧ rest ≠ []
        · rw [show anthropic_try_candidates call (c :: rest) =
              (c :: (anthropic_try_candidates call rest).1,
                (anthropic_try_candidates call rest).2) by
            simp [anthropic_try_candidates, hc, h404.1, h404.2]] at h
          exact ih code r h
        · simp [anthropic_try_candidates, hc, h404] at h
          obtain ⟨hcode, hr⟩ := h
          subst hcode
          simp [← hr]
      | otherErr => simp [anthropic_try_candidates, hc] at h
  · intro α status candidates code r h
    by_cases hs : 400 ≤ status
    · simp [gemini_response_phase, hs] at h
      obtain ⟨hcode, hr⟩ := h
      subst hcode
      simp [← hr]
    · cases candidates with
      | nil => simp [gemini_response_phase, hs] at h
      | cons x xs => simp [gemini_response_phase, hs] at h
  · intro α status candidates hs
    simp [gemini_response_phase, hs]

theorem remote_status_error_retryable_classification_witness :
    (anthropic_try_candidates (fun _ => (CallOutcome.statusErr 503 : CallOutcome Nat)) ["a"]).2 =
      AdapterResult.statusError 503 true ∧
    (true = true ↔ 500 ≤ 503) ∧
    400 ≤ 418 ∧
    gemini_response_phase 418 ([] : List Nat) = AdapterResult.statusError 418 false := by
  refine ⟨rfl, ?_, by decide, ?_⟩
  · exact remote_status_error_retryable_classification.1
      (fun _ => (CallOutcome.statusErr 503 : CallOutcome Nat)) ["a"] 503 true rfl
  · exact remote_status_error_retryable_classification.2.2 418 ([] : List Nat) (by decide)

theorem dropWhile_append_cons (xs ys : List Char) (c : Char) (h : pyIsSpace c = false) :
    List.dropWhile pyIsSpace (xs ++ c :: ys) = List.dropWhile pyIsSpace xs ++ c :: ys := by
  induction xs with
  | nil => simp [List.dropWhile_cons, h]
  | cons x xs ih =>
    by_cases hx : pyIsSpace x
    · simp [List.dropWhile_cons, hx, ih]
    · simp [List.dropWhile_cons, hx]

theorem listLeads_append (p t : List Char) : listLeads p (p ++ t) = true := by
  induction p with
  | nil => rfl
  | cons c cs ih => simp [listLeads, ih]

theorem listLeads_iff (p l : List Char) : listLeads p l = true ↔ ∃ t, l = p ++ t := by
  constructor
  · induction p generalizing l with
    | nil => intro _; exact ⟨l, rfl⟩
    | cons c cs ih =>
      intro h
      cases l with
      | nil => simp [listLeads] at h
      | cons x xs =>
        simp only [listLeads, Bool.and_eq_true, beq_iff_eq] at h
        obtain ⟨hc, hrest⟩ := h
        obtain ⟨t, ht⟩ := ih xs hrest
        exact ⟨t, by simp [← hc, ht]⟩
  · rintro ⟨t, rfl⟩
    exact listLeads_append p t

theorem pyStripL_openai (t : List Char) :
    pyStripL ("openai/".data ++ t) = "openai/".data ++ rstripL t := by
  have ho : pyIsSpace 'o' = false := by decide
  have hsl : pyIsSpace '/' = false := by decide
  have h1 : lstripL ("openai/".data ++ t) = "openai/".data ++ t := by
    show List.dropWhile pyIsSpace ('o' :: (['p', 'e', 'n', 'a', 'i', '/'] ++ t)) =
      'o' :: (['p', 'e', 'n', 'a', 'i', '/'] ++ t)
    rw [List.dropWhile_cons, ho]
    simp
  have h2 : rstripL ("openai/".data ++ t) = "openai/".data ++ rstripL t := by
    unfold rstripL
    rw [List.reverse_append]
    rw [show ("openai/".data).reverse = '/' :: ['i', 'a', 'n', 'e', 'p', 'o'] from rfl]
    rw [dropWhile_append_cons _ _ '/' hsl]
    rw [List.reverse_append]
    rw [show ('/' :: ['i', 'a', 'n', 'e', 'p', 'o']).reverse = "openai/".data from rfl]
  calc pyStripL ("openai/".data ++ t)
      = rstripL (lstripL ("openai/".data ++ t)) := rfl
    _ = rstripL ("openai/".data ++ t) := by rw [h1]
    _ = "openai/".data ++ rstripL t := h2

theorem strLeads_strip_of_strLeads {m : String} (h : strLeads m "openai/" = true) :
    strLeads (pyStrip m) "openai/" = true := by
  obtain ⟨t, ht⟩ := (listLeads_iff _ _).mp h
  show listLeads ("openai/".data) (pyStripL m.data) = true
  rw [ht, pyStripL_openai]
  exact listLeads_append _ _

theorem mk_cons_ne_empty (c : Char) (l : List Char) : String.mk (c :: l) ≠ "" := by
  intro h
  exact List.cons_ne_nil c l (congrArg String.data h)

/-- C2: provider resolution follows the decision order of the spec. (1) An
identifier carrying the explicit provider namespace prefix resolves to that
provider, and the backend model name is the suffix after the prefix (the
code right-strips surrounding whitespace first, so for clean identifiers
this is exactly the prefix stripped). (2) An identifier exactly matching a
known alternate-provider model key resolves to that provider. (3) Any
other identifier (including the absent one) resolves to the default
provider, and when it carries no known namespace prefix and matches no
alternate key, the resolved backend model is the default provider's
default model. -/
theorem provider_resolution_decision_order :
    (∀ m : String, strLeads m "openai/" = true →
      infer_model_provider (some m) = "openai" ∧
      ∃ t : List Char, m.data = "openai/".data ++ t ∧
        resolve_openai_chat_model (some m) = String.mk (rstripL t)) ∧
    (∀ m : String, anthropicHasKey m = true → infer_model_provider (some m) = "anthropic") ∧
    (∀ m : String, googleHasKey m = true → infer_model_provider (some m) = "google") ∧
    (∀ m : String, strLeads (pyStrip m) "openai/" = false →
      anthropicHasKey m = false → googleHasKey m = false →
      infer_model_provider (some m) = "openai" ∧
      resolve_openai_chat_model (some m) = DEFAULT_OPENAI_CHAT_MODEL) ∧
    (infer_model_provider Option.none = "openai" ∧
      resolve_openai_chat_model Option.none = DEFAULT_OPENAI_CHAT_MODEL) := by
  refine ⟨?_, ?_, ?_, ?_, rfl, rfl⟩
  · intro m h
    obtain ⟨t, ht⟩ := (listLeads_iff _ _).mp h
    have hmne : m ≠ "" := by
      intro he
      rw [he] at ht
      have hnil : ([] : List Char) = 'o' :: (['p', 'e', 'n', 'a', 'i', '/'] ++ t) := ht
      simp at hnil
    refine ⟨by simp [infer_model_provider, hmne, h], t, ht, ?_⟩
    have hstrip : pyStrip m = String.mk ("openai/".data ++ rstripL t) := by
      show String.mk (pyStripL m.data) = _
      rw [ht, pyStripL_openai]
    have hne2 : pyStrip m ≠ "" := by
      rw [hstrip]
      exact mk_cons_ne_empty 'o' (['p', 'e', 'n', 'a', 'i', '/'] ++ rstripL t)
    have hlead2 : strLeads (pyStrip m) "openai/" = true := strLeads_strip_of_strLeads h
    show resolve_openai_chat_model (some m) = String.mk (rstripL t)
    unfold resolve_openai_chat_model
    simp only [Option.getD_some, hne2, if_false, hlead2, if_true]
    rw [show pyStrip m = String.mk ("openai/".data ++ rstripL t) from hstrip]
    show String.mk (("openai/".data ++ rstripL t).drop 7) = String.mk (rstripL t)
    rw [show (7 : Nat) = ("openai/".data).length from rfl, List.drop_left]
  · intro m h
    have hm : "claude-sonnet-4-5" = m ∨ "claude-haiku-4-5" = m := by
      simpa [anthropicHasKey, ANTHROPIC_MODEL_CANDIDATES] using h
    rcases hm with h1 | h1 <;> subst h1 <;> rfl
  · intro m h
    have hm : "google/gemini-2.5-pro" = m ∨ "google/gemini-2.5-flash" = m ∨
        "google/gemini-2.5-flash-lite" = m := by
      simpa [googleHasKey, GOOGLE_MODEL_MAP] using h
    rcases hm with h1 | h1 | h1 <;> subst h1 <;> rfl
  · intro m hs ha hg
    by_cases hm : m = ""
    · subst hm
      exact ⟨rfl, rfl⟩
    · have hlead : strLeads m "openai/" = false := by
        cases hsm : strLeads m "openai/" with
        | false => rfl
        | true =>
          rw [strLeads_strip_of_strLeads hsm] at hs
          exact absurd hs (by simp)
      refine ⟨by simp [infer_model_provider, hm, hlead, ha, hg], ?_⟩
      unfold resolve_openai_chat_model
      by_cases hps : pyStrip m = ""
      · simp [hps]
      · simp [hps, hs]

theorem provider_resolution_decision_order_witness :
    strLeads "openai/gpt-4o" "openai/" = true ∧
    infer_model_provider (some "openai/gpt-4o") = "openai" ∧
    anthropicHasKey "claude-haiku-4-5" = true ∧
    infer_model_provider (some "claude-haiku-4-5") = "anthropic" ∧
    googleHasKey "google/gemini-2.5-pro" = true ∧
    infer_model_provider (some "google/gemini-2.5-pro") = "google" ∧
    infer_model_provider (some "gpt-4") = "openai" ∧
    resolve_openai_chat_model (some "gpt-4") = DEFAULT_OPENAI_CHAT_MODEL := by
  refine ⟨by decide, (provider_resolution_decision_order.1 "openai/gpt-4o" (by decide)).1,
    by decide, provider_resolution_decision_order.2.1 "claude-haiku-4-5" (by decide),
    by decide, provider_resolution_decision_order.2.2.1 "google/gemini-2.5-pro" (by decide),
    ?_, ?_⟩
  · exact (provider_resolution_decision_order.2.2.2.1 "gpt-4"
      (by decide) (by decide) (by decide)).1
  · exact (provider_resolution_decision_order.2.2.2.1 "gpt-4"
      (by decide) (by decide) (by decide)).2

theorem infer_anthropic_key {m : String} (h : infer_model_provider (some m) = "anthropic") :
    "claude-sonnet-4-5" = m ∨ "claude-haiku-4-5" = m := by
  by_cases h3 : anthropicHasKey m = true
  · simpa [anthropicHasKey, ANTHROPIC_MODEL_CANDIDATES] using h3
  · exfalso
    unfold infer_model_provider at h
    by_cases h1 : m = "" <;> by_cases h2 : strLeads m "openai/" = true <;>
      by_cases h4 : googleHasKey m = true <;> simp [h1, h2, h3, h4] at h

theorem infer_google_key {m : String} (h : infer_model_provider (some m) = "google") :
    "google/gemini-2.5-pro" = m ∨ "google/gemini-2.5-flash" = m ∨
      "google/gemini-2.5-flash-lite" = m := by
  by_cases h4 : googleHasKey m = true
  · simpa [googleHasKey, GOOGLE_MODEL_MAP] using h4
  · exfalso
    unfold infer_model_provider at h
    by_cases h1 : m = "" <;> by_cases h2 : strLeads m "openai/" = true <;>
      by_cases h3 : anthropicHasKey m = true <;> simp [h1, h2, h3, h4] at h

/-- C6: a model identifier resolving to an alternate provider whose
credentials are absent never fails `create_hybrid_llm`: the router falls
back to the OpenAI provider, and — because alternate-keyed identifiers do
not carry the `"openai/"` prefix — the resolved backend model is the fixed
default model. -/
theorem alternate_provider_credential_fallback :
    (∀ (m : String) (hasGemini : Bool), infer_model_provider (some m) = "anthropic" →
      create_hybrid_llm false hasGemini (some m) =
        { provider := "openai", model_key := DEFAULT_OPENAI_CHAT_MODEL }) ∧
    (∀ (m : String) (hasAnthropic : Bool), infer_model_provider (some m) = "google" →
      create_hybrid_llm hasAnthropic false (some m) =
        { provider := "openai", model_key := DEFAULT_OPENAI_CHAT_MODEL }) := by
  constructor
  · intro m hg h
    rcases infer_anthropic_key h with h1 | h1 <;> subst h1 <;>
      simp [create_hybrid_llm] <;> rfl
  · intro m ha h
    rcases infer_google_key h with h1 | h1 | h1 <;> subst h1 <;>
      simp [create_hybrid_llm] <;> rfl

theorem alternate_provider_credential_fallback_witness :
    infer_model_provider (some "claude-haiku-4-5") = "anthropic" ∧
    create_hybrid_llm false true (some "claude-haiku-4-5") =
      { provider := "openai", model_key := DEFAULT_OPENAI_CHAT_MODEL } ∧
    infer_model_provider (some "google/gemini-2.5-flash") = "google" ∧
    create_hybrid_llm true false (some "google/gemini-2.5-flash") =
      { provider := "openai", model_key := DEFAULT_OPENAI_CHAT_MODEL } := by
  refine ⟨rfl, ?_, rfl, ?_⟩
  · exact alternate_provider_credential_fallback.1 "claude-haiku-4-5" true rfl
  · exact alternate_provider_credential_fallback.2 "google/gemini-2.5-flash" true rfl

/-- C7: flattening a key-value mapping attempts the fields in the fixed
order text, transcript, content, value — the lookup loop is driven by that
key list, not by the mapping's iteration order; the first present field
whose value is truthy and whose recursive flattening is non-empty wins; if
no field qualifies the result is the empty string; and on the spec's
example the result is "hello" for either insertion order of the mapping. -/
theorem dictKeyLoop_cons_some {k : String} {ks : List String} {es : List (String × PyVal)}
    {v : PyVal} (h : pyLookup k es = some v) :
    dictKeyLoop (k :: ks) es =
      if PyVal.truthy v = true then
        (if (flatten_text v != "") = true then flatten_text v else dictKeyLoop ks es)
      else dictKeyLoop ks es := by
  simp only [dictKeyLoop]
  split
  · next v2 heq =>
    rw [h] at heq
    cases heq
    rfl
  · next heq =>
    rw [h] at heq
    cases heq

theorem dictKeyLoop_cons_none {k : String} {ks : List String} {es : List (String × PyVal)}
    (h : pyLookup k es = none) :
    dictKeyLoop (k :: ks) es = dictKeyLoop ks es := by
  simp only [dictKeyLoop]
  split
  · next v2 heq =>
    rw [h] at heq
    cases heq
  · rfl

theorem flatten_precedence :
    (∀ es : List (String × PyVal),
      flatten_text (PyVal.dict es) =
        dictKeyLoop ["text", "transcript", "content", "value"] es) ∧
    (∀ (es : List (String × PyVal)) (v : PyVal), pyLookup "text" es = some v →
      PyVal.truthy v = true → flatten_text v ≠ "" →
      flatten_text (PyVal.dict es) = flatten_text v) ∧
    (∀ (ks : List String) (es : List (String × PyVal)),
      (∀ k ∈ ks, ∀ v, pyLookup k es = some v →
        PyVal.truthy v = false ∨ flatten_text v = "") →
      dictKeyLoop ks es = "") ∧
    (flatten_text (PyVal.dict [("transcript", PyVal.str ""), ("text", PyVal.str "hello")]) =
        "hello" ∧
      flatten_text (PyVal.dict [("text", PyVal.str "hello"), ("transcript", PyVal.str "")]) =
        "hello") := by
  refine ⟨?_, ?_, ?_, ?_, ?_⟩
  · intro es
    simp [flatten_text]
  · intro es v h htruthy hne
    have h1 : flatten_text (PyVal.dict es) =
        dictKeyLoop ["text", "transcript", "content", "value"] es := by
      simp [flatten_text]
    rw [h1, dictKeyLoop_cons_some h, htruthy]
    simp [hne]
  · intro ks es hall
    induction ks with
    | nil => simp [dictKeyLoop]
    | cons k ks ih =>
      have hrest : ∀ k2 ∈ ks, ∀ v, pyLookup k2 es = some v →
          PyVal.truthy v = false ∨ flatten_text v = "" :=
        fun k2 hk2 => hall k2 (by simp [hk2])
      cases h : pyLookup k es with
      | none =>
        rw [dictKeyLoop_cons_none h]
        exact ih hrest
      | some v =>
        rw [dictKeyLoop_cons_some h]
        cases htr : PyVal.truthy v with
        | false =>
          simp
          exact ih hrest
        | true =>
          rcases hall k (by simp) v h with hf | hf
          · rw [htr] at hf
            cases hf
          · simp [hf]
            exact ih hrest
  · simp [flatten_text, dictKeyLoop, pyLookup, PyVal.truthy]
  · simp [flatten_text, dictKeyLoop, pyLookup, PyVal.truthy]

theorem flatten_precedence_witness :
    pyLookup "text" [("transcript", PyVal.str ""), ("text", PyVal.str "hello")] =
      some (PyVal.str "hello") ∧
    PyVal.truthy (PyVal.str "hello") = true ∧
    flatten_text (PyVal.dict [("transcript", PyVal.str ""), ("text", PyVal.str "hello")]) =
      flatten_text (PyVal.str "hello") := by
  refine ⟨rfl, rfl, ?_⟩
  exact flatten_precedence.2.1 [("transcript", PyVal.str ""), ("text", PyVal.str "hello")]
    (PyVal.str "hello") rfl rfl (by simp [flatten_text])

/-! ## Dedup-cache lemmas and claims about `_is_duplicate` -/

theorem pyLookup_mem {β : Type} {k : String} {v : β} :
    ∀ {l : List (String × β)}, pyLookup k l = some v → (k, v) ∈ l := by
  intro l
  induction l with
  | nil => intro h; simp [pyLookup] at h
  | cons e rest ih =>
    intro h
    rcases e with ⟨k0, v0⟩
    by_cases he : k0 = k
    · subst he
      simp [pyLookup] at h
      subst h
      exact List.mem_cons_self _ _
    · simp [pyLookup, he] at h
      exact List.mem_cons_of_mem _ (ih h)

theorem pyLookup_filter {β : Type} {k : String} {v : β} {p : String × β → Bool} :
    ∀ {l : List (String × β)}, pyLookup k l = some v → p (k, v) = true →
      pyLookup k (l.filter p) = some v := by
  intro l
  induction l with
  | nil => intro h _; simp [pyLookup] at h
  | cons e rest ih =>
    intro h hp
    rcases e with ⟨k0, v0⟩
    by_cases he : k0 = k
    · subst he
      simp [pyLookup] at h
      subst h
      rw [List.filter_cons_of_pos hp]
      simp [pyLookup]
    · simp [pyLookup, he] at h
      cases hpe : p (k0, v0) with
      | true =>
        rw [List.filter_cons_of_pos hpe]
        simp [pyLookup, he]
        exact ih h hp
      | false =>
        rw [List.filter_cons_of_neg (by simp [hpe])]
        exact ih h hp

theorem pySet_cons_ne {β : Type} {k0 : String} {v0 : β} {rest : List (String × β)}
    {k : String} {v : β} (hk : k0 ≠ k) :
    pySet ((k0, v0) :: rest) k v = (k0, v0) :: pySet rest k v := by
  cases hany : rest.any (fun e => e.1 = k) with
  | true => simp [pySet, hk, hany]
  | false => simp [pySet, hk, hany]

theorem pySet_cons_eq {β : Type} {v0 : β} {rest : List (String × β)}
    {k : String} {v : β} :
    pySet ((k, v0) :: rest) k v =
      (k, v) :: rest.map (fun e => if e.1 = k then (e.1, v) else e) := by
  simp [pySet]

theorem pyLookup_pySet_self {β : Type} : ∀ (l : List (String × β)) (k : String) (v : β),
    pyLookup k (pySet l k v) = some v := by
  intro l k v
  induction l with
  | nil => simp [pySet, pyLookup]
  | cons e rest ih =>
    rcases e with ⟨k0, v0⟩
    by_cases hk : k0 = k
    · subst hk
      rw [pySet_cons_eq]
      simp [pyLookup]
    · rw [pySet_cons_ne hk]
      simp [pyLookup, hk]
      exact ih

theorem mapSet_key_val {β : Type} {k : String} {v ts : β} :
    ∀ {l : List (String × β)},
      (k, ts) ∈ l.map (fun e => if e.1 = k then (e.1, v) else e) → ts = v := by
  intro l h
  obtain ⟨e0, he0, heq⟩ := List.mem_map.mp h
  by_cases hk : e0.1 = k
  · rw [if_pos hk] at heq
    exact (Prod.mk.injEq _ _ _ _).mp heq |>.2.symm
  · rw [if_neg hk] at heq
    rw [heq] at hk
    simp at hk

theorem pySet_key_val {β : Type} {k : String} {v ts : β} :
    ∀ {l : List (String × β)}, (k, ts) ∈ pySet l k v → ts = v := by
  intro l
  induction l with
  | nil =>
    intro h
    simpa [pySet] using h
  | cons e rest ih =>
    intro h
    rcases e with ⟨k0, v0⟩
    by_cases hk : k0 = k
    · subst hk
      rw [pySet_cons_eq] at h
      rcases List.mem_cons.mp h with h1 | h1
      · exact ((Prod.mk.injEq _ _ _ _).mp h1.symm).2.symm
      · exact mapSet_key_val h1
    · rw [pySet_cons_ne hk] at h
      rcases List.mem_cons.mp h with h1 | h1
      · exfalso
        apply hk
        exact ((Prod.mk.injEq _ _ _ _).mp h1.symm).1
      · exact ih h1

theorem mem_pySet {β : Type} {l : List (String × β)} {k : String} {v : β} {e : String × β}
    (h : e ∈ pySet l k v) : e ∈ l ∨ e.2 = v := by
  unfold pySet at h
  by_cases hany : (l.any (fun e => e.1 = k)) = true
  · rw [if_pos hany] at h
    obtain ⟨e0, he0, heq⟩ := List.mem_map.mp h
    by_cases hk : e0.1 = k
    · rw [if_pos hk] at heq
      right
      rw [← heq]
    · rw [if_neg hk] at heq
      left
      rw [← heq]
      exact he0
  · rw [if_neg hany] at h
    rcases List.mem_append.mp h with h1 | h1
    · exact Or.inl h1
    · right
      simp at h1
      rw [h1]

theorem mem_purge_le {cache : List (String × ℚ)} {now : ℚ} {p : String} {ts : ℚ}
    (h : (p, ts) ∈ purgeCache cache now) : now - ts ≤ DEDUPE_WINDOW_SECONDS := by
  have h2 := (List.mem_filter.mp h).2
  simp at h2
  linarith

theorem mem_purge_mem {cache : List (String × ℚ)} {now : ℚ} {e : String × ℚ}
    (h : e ∈ purgeCache cache now) : e ∈ cache :=
  (List.mem_filter.mp h).1

theorem dup_true_elim {c : List (String × ℚ)} {t : ℚ} {text : String}
    (h : (_is_duplicate c t text).1 = true) :
    ∃ ts, pyLookup text (purgeCache c t) = some ts ∧ ts ≠ 0 ∧
      t - ts < DEDUPE_WINDOW_SECONDS ∧ (_is_duplicate c t text).2 = purgeCache c t := by
  cases hl : pyLookup text (purgeCache c t) with
  | none =>
    exfalso
    simp only [_is_duplicate, hl] at h
    simp at h
  | some ts =>
    by_cases hc : ts ≠ 0 ∧ t - ts < DEDUPE_WINDOW_SECONDS
    · refine ⟨ts, rfl, hc.1, hc.2, ?_⟩
      simp only [_is_duplicate, hl, if_pos hc]
    · exfalso
      simp only [_is_duplicate, hl, if_neg hc] at h
      simp at h

theorem dup_false_cache {c : List (String × ℚ)} {t : ℚ} {text : String}
    (h : (_is_duplicate c t text).1 = false) :
    (_is_duplicate c t text).2 = pySet (purgeCache c t) text t := by
  cases hl : pyLookup text (purgeCache c t) with
  | none => simp only [_is_duplicate, hl]
  | some ts =>
    by_cases hc : ts ≠ 0 ∧ t - ts < DEDUPE_WINDOW_SECONDS
    · exfalso
      simp only [_is_duplicate, hl, if_pos hc] at h
      simp at h
    · simp only [_is_duplicate, hl, if_neg hc]

theorem not_dup_of_all_old {c : List (String × ℚ)} {t0 t : ℚ} {text : String}
    (hall : ∀ ts, (text, ts) ∈ c → ts = t0) (ht : t0 + DEDUPE_WINDOW_SECONDS ≤ t) :
    (_is_duplicate c t text).1 = false := by
  cases hl : pyLookup text (purgeCache c t) with
  | none => simp only [_is_duplicate, hl]
  | some ts =>
    have hmem : (text, ts) ∈ purgeCache c t := pyLookup_mem hl
    have hts : ts = t0 := hall ts (mem_purge_mem hmem)
    subst hts
    have hcneg : ¬(ts ≠ 0 ∧ t - ts < DEDUPE_WINDOW_SECONDS) := by
      intro hcond
      have := hcond.2
      linarith
    simp only [_is_duplicate, hl, if_neg hcneg]

/-- C3 counterexample: with the monotonic clock starting at 0, the text
"hi" is persisted at t0 = 0 (the check returns false and records the
timestamp 0), and one second later — well inside the 5-second window — the
second occurrence is NOT suppressed (the check returns false again),
because the stored timestamp 0.0 is falsy in the guard
`if last_seen and now - last_seen < WINDOW`. -/
theorem dedup_window_zero_timestamp_counterexample :
    (_is_duplicate [] 0 "hi").1 = false ∧
    (_is_duplicate [] 0 "hi").2 = [("hi", 0)] ∧
    ((1 : ℚ) < 0 + DEDUPE_WINDOW_SECONDS) ∧
    (_is_duplicate [("hi", 0)] 1 "hi").1 = false := by
  refine ⟨?_, ?_, ?_, ?_⟩ <;>
    norm_num [_is_duplicate, purgeCache, pyLookup, pySet, DEDUPE_WINDOW_SECONDS, List.filter]

/-- C3 (amended): on every duplicate check, entries older than the
5.0-second window are purged first — every entry of the resulting cache is
within the window of "now"; a non-duplicate check records the current
timestamp under the exact text; if the text is persisted at a time t0 ≠ 0,
a second occurrence at t1 < t0 + 5.0s is suppressed as a duplicate, and an
occurrence at t1 ≥ t0 + 5.0s is persisted again; suppression happens only
when the exact text is present in the purged cache with a nonzero
timestamp newer than the window (exact-string match; a timestamp of
exactly 0 is treated as absent by the source's truthiness guard). -/
theorem dedup_window_behavior (cache : List (String × ℚ)) (t0 t1 : ℚ) (text : String) :
    (∀ p ts, (p, ts) ∈ (_is_duplicate cache t0 text).2 →
      t0 - ts ≤ DEDUPE_WINDOW_SECONDS) ∧
    ((_is_duplicate cache t0 text).1 = false →
      pyLookup text (_is_duplicate cache t0 text).2 = some t0) ∧
    ((_is_duplicate cache t0 text).1 = false → t0 ≠ 0 → t0 ≤ t1 →
      t1 < t0 + DEDUPE_WINDOW_SECONDS →
      (_is_duplicate (_is_duplicate cache t0 text).2 t1 text).1 = true) ∧
    ((_is_duplicate cache t0 text).1 = false → t0 + DEDUPE_WINDOW_SECONDS ≤ t1 →
      (_is_duplicate (_is_duplicate cache t0 text).2 t1 text).1 = false) ∧
    ((_is_duplicate cache t0 text).1 = true →
      ∃ ts, pyLookup text (purgeCache cache t0) = some ts ∧ ts ≠ 0 ∧
        t0 - ts < DEDUPE_WINDOW_SECONDS) := by
  refine ⟨?_, ?_, ?_, ?_, ?_⟩
  · intro p ts hmem
    cases hd : (_is_duplicate cache t0 text).1 with
    | true =>
      obtain ⟨ts2, _, _, _, hc⟩ := dup_true_elim hd
      rw [hc] at hmem
      exact mem_purge_le hmem
    | false =>
      rw [dup_false_cache hd] at hmem
      rcases mem_pySet hmem with h1 | h1
      · exact mem_purge_le h1
      · simp at h1
        rw [h1]
        simp
        norm_num [DEDUPE_WINDOW_SECONDS]
  · intro hd
    rw [dup_false_cache hd]
    exact pyLookup_pySet_self _ _ _
  · intro hd ht0 h01 h1
    have hc1 : (_is_duplicate cache t0 text).2 = pySet (purgeCache cache t0) text t0 :=
      dup_false_cache hd
    have hlk : pyLookup text (_is_duplicate cache t0 text).2 = some t0 := by
      rw [hc1]
      exact pyLookup_pySet_self _ _ _
    have hlk2 : pyLookup text (purgeCache (_is_duplicate cache t0 text).2 t1) = some t0 := by
      apply pyLookup_filter hlk
      simp
      linarith
    have hcpos : t0 ≠ 0 ∧ t1 - t0 < DEDUPE_WINDOW_SECONDS := ⟨ht0, by linarith⟩
    generalize hg : (_is_duplicate cache t0 text).2 = c1 at hlk2
    simp only [_is_duplicate, hlk2, if_pos hcpos]
  · intro hd h5
    have hc1 : (_is_duplicate cache t0 text).2 = pySet (purgeCache cache t0) text t0 :=
      dup_false_cache hd
    apply not_dup_of_all_old ?_ h5
    intro ts hmem
    rw [hc1] at hmem
    exact pySet_key_val hmem
  · intro hd
    obtain ⟨ts, hl, h0, hw, _⟩ := dup_true_elim hd
    exact ⟨ts, hl, h0, hw⟩

theorem dedup_window_behavior_witness :
    (_is_duplicate [] 1 "hi").1 = false ∧
    ((1 : ℚ) ≠ 0) ∧ ((1 : ℚ) ≤ 3) ∧ ((3 : ℚ) < 1 + DEDUPE_WINDOW_SECONDS) ∧
    (_is_duplicate (_is_duplicate [] 1 "hi").2 3 "hi").1 = true ∧
    ((1 : ℚ) + DEDUPE_WINDOW_SECONDS ≤ 7) ∧
    (_is_duplicate (_is_duplicate [] 1 "hi").2 7 "hi").1 = false := by
  have h0 : (_is_duplicate [] 1 "hi").1 = false := by
    norm_num [_is_duplicate, purgeCache, pyLookup, pySet, List.filter]
  refine ⟨h0, by norm_num, by norm_num, by norm_num [DEDUPE_WINDOW_SECONDS],
    (dedup_window_behavior [] 1 3 "hi").2.2.1 h0 (by norm_num) (by norm_num)
      (by norm_num [DEDUPE_WINDOW_SECONDS]),
    by norm_num [DEDUPE_WINDOW_SECONDS],
    (dedup_window_behavior [] 1 7 "hi").2.2.2.1 h0 (by norm_num [DEDUPE_WINDOW_SECONDS])⟩

/-- C10: a suppressing duplicate check's only cache mutation is the purge
(the resulting cache is exactly the purged cache — the stored timestamp is
not refreshed, so the window does not slide); consequently, if the text is
recorded at t0 and an occurrence at t1 is suppressed, the entry's
timestamp is still t0 afterwards, and an occurrence at any
t2 ≥ t0 + 5.0s is persisted again even if the suppressed occurrence was
less than 5.0s before t2. -/
theorem dedup_no_refresh (cache : List (String × ℚ)) (t0 t1 t2 : ℚ) (text : String) :
    ((_is_duplicate cache t1 text).1 = true →
      (_is_duplicate cache t1 text).2 = purgeCache cache t1) ∧
    ((_is_duplicate cache t0 text).1 = false →
      (_is_duplicate ((_is_duplicate cache t0 text).2) t1 text).1 = true →
      pyLookup text ((_is_duplicate ((_is_duplicate cache t0 text).2) t1 text).2) =
        some t0 ∧
      (t0 + DEDUPE_WINDOW_SECONDS ≤ t2 →
        (_is_duplicate
          ((_is_duplicate ((_is_duplicate cache t0 text).2) t1 text).2)
          t2 text).1 = false)) := by
  constructor
  · intro hd
    obtain ⟨_, _, _, _, hc⟩ := dup_true_elim hd
    exact hc
  · intro hd0 hd1
    have hc1 : (_is_duplicate cache t0 text).2 = pySet (purgeCache cache t0) text t0 :=
      dup_false_cache hd0
    obtain ⟨ts, hl, h0, hw, hc2⟩ := dup_true_elim hd1
    have hts : ts = t0 := by
      have hmem : (text, ts) ∈ purgeCache ((_is_duplicate cache t0 text).2) t1 :=
        pyLookup_mem hl
      have hmem2 : (text, ts) ∈ (_is_duplicate cache t0 text).2 := mem_purge_mem hmem
      rw [hc1] at hmem2
      exact pySet_key_val hmem2
    rw [hts] at hl
    refine ⟨by rw [hc2]; exact hl, ?_⟩
    intro h5
    apply not_dup_of_all_old ?_ h5
    intro ts2 hmem
    rw [hc2] at hmem
    have hmem2 : (text, ts2) ∈ (_is_duplicate cache t0 text).2 := mem_purge_mem hmem
    rw [hc1] at hmem2
    exact pySet_key_val hmem2

theorem dedup_no_refresh_witness :
    (_is_duplicate [] 1 "hi").1 = false ∧
    (_is_duplicate (_is_duplicate [] 1 "hi").2 3 "hi").1 = true ∧
    pyLookup "hi" ((_is_duplicate (_is_duplicate [] 1 "hi").2 3 "hi").2) = some 1 ∧
    ((1 : ℚ) + DEDUPE_WINDOW_SECONDS ≤ 7) ∧
    (_is_duplicate ((_is_duplicate (_is_duplicate [] 1 "hi").2 3 "hi").2) 7 "hi").1 =
      false := by
  have h0 : (_is_duplicate [] 1 "hi").1 = false := by
    norm_num [_is_duplicate, purgeCache, pyLookup, pySet, List.filter]
  have h1 : (_is_duplicate (_is_duplicate [] 1 "hi").2 3 "hi").1 = true := by
    norm_num [_is_duplicate, purgeCache, pyLookup, pySet, DEDUPE_WINDOW_SECONDS, List.filter]
  have hmain := (dedup_no_refresh [] 1 3 7 "hi").2 h0 h1
  exact ⟨h0, h1, hmain.1, by norm_num [DEDUPE_WINDOW_SECONDS],
    hmain.2 (by norm_num [DEDUPE_WINDOW_SECONDS])⟩

/-! ## Claims about `handle_user_transcript_chunk` -/

/-- A concrete manager state with a bound session and a held partial,
used in the C1 counterexample. -/
def tmHello : TranscriptManager :=
  { session_id := some "s", recent_user := [], recent_assistant := [],
    pendingUserText := some "hello" }

/-- A concrete manager state with a bound session and no held partial,
used in the C1 witness. -/
def tmFresh : TranscriptManager :=
  { session_id := some "s", recent_user := [], recent_assistant := [],
    pendingUserText := Option.none }

/-- C1 counterexample: a final chunk whose text normalizes to the empty
string returns early.  With a held partial "hello" and a bound session,
`handle_user_transcript_chunk("   ", is_final=True)` leaves the held
partial equal to "hello": it is neither updated to the (empty) normalized
text nor cleared, and no persistence is attempted. -/
theorem chunk_empty_counterexample :
    _normalize_text (PyVal.str "   ") = "" ∧
    handle_user_transcript_chunk tmHello 0 "   " true = (tmHello, Option.none) ∧
    tmHello.pendingUserText = some "hello" := by
  have hf : flatten_text (PyVal.str "   ") = "   " := by simp [flatten_text]
  have hn : _normalize_text (PyVal.str "   ") = "" := by
    simp only [_normalize_text, hf]
    rfl
  exact ⟨hn, by simp [handle_user_transcript_chunk, hn], rfl⟩

/-- C1 (amended): when the incoming text normalizes to the empty string
the call is a no-op (the held partial is neither updated nor cleared, and
nothing is persisted); when it normalizes to a non-empty string, the held
partial is always updated to that string, and on a final chunk the held
partial is cleared regardless of the persistence outcome; on a final chunk
with a bound session whose normalized text is not a duplicate, the turn is
dispatched for persistence. -/
theorem chunk_update_and_clear (tm : TranscriptManager) (now : ℚ) (transcript : String)
    (is_final : Bool) :
    (_normalize_text (PyVal.str transcript) = "" →
      handle_user_transcript_chunk tm now transcript is_final = (tm, Option.none)) ∧
    (_normalize_text (PyVal.str transcript) ≠ "" →
      (handle_user_transcript_chunk tm now transcript is_final).1.pendingUserText =
        (if is_final = true then Option.none
         else some (_normalize_text (PyVal.str transcript)))) ∧
    (_normalize_text (PyVal.str transcript) ≠ "" → is_final = true →
      pyTruthyOptStr tm.session_id = true →
      (_is_duplicate tm.recent_user now (_normalize_text (PyVal.str transcript))).1 =
        false →
      (handle_user_transcript_chunk tm now transcript is_final).2 =
        some (Speaker.user, _normalize_text (PyVal.str transcript))) := by
  refine ⟨?_, ?_, ?_⟩
  · intro h
    simp [handle_user_transcript_chunk, h]
  · intro h
    cases is_final with
    | true => simp [handle_user_transcript_chunk, h]
    | false => simp [handle_user_transcript_chunk, h]
  · intro h hfin htruthy hdup
    subst hfin
    simp [handle_user_transcript_chunk, h, _maybe_save_turn, htruthy,
      TranscriptManager.cacheOf, hdup]

theorem chunk_update_and_clear_witness :
    _normalize_text (PyVal.str "turn left") = "turn left" ∧
    pyTruthyOptStr tmFresh.session_id = true ∧
    (_is_duplicate tmFresh.recent_user 0 (_normalize_text (PyVal.str "turn left"))).1 =
      false ∧
    (handle_user_transcript_chunk tmFresh 0 "turn left" true).1.pendingUserText =
      Option.none ∧
    (handle_user_transcript_chunk tmFresh 0 "turn left" true).2 =
      some (Speaker.user, _normalize_text (PyVal.str "turn left")) := by
  have hf : flatten_text (PyVal.str "turn left") = "turn left" := by simp [flatten_text]
  have hn : _normalize_text (PyVal.str "turn left") = "turn left" := by
    simp only [_normalize_text, hf]
    rfl
  have hne : _normalize_text (PyVal.str "turn left") ≠ "" := by simp [hn]
  have hdup : (_is_duplicate tmFresh.recent_user 0
      (_normalize_text (PyVal.str "turn left"))).1 = false := by
    rw [hn]
    norm_num [tmFresh, _is_duplicate, purgeCache, pyLookup, pySet, List.filter]
  refine ⟨hn, rfl, hdup, ?_, ?_⟩
  · have := (chunk_update_and_clear tmFresh 0 "turn left" true).2.1 hne
    simpa using this
  · exact (chunk_update_and_clear tmFresh 0 "turn left" true).2.2 hne rfl rfl hdup

end Agent
